import Mathlib

/-!
Verification of the `chers` chess engine core.

The Rust sources are translated into a shallow embedding:

* `Piece` values use the `u8` encoding of `piece.rs`: three bits of piece
  type plus one color bit (bit 3), with the two sentinel codes
  `EMPTY = 14` and `OFF_BOARD = 15` above the piece range.  A board cell
  is therefore just a `Nat` below 16.
* `Color` is a `Bool` exactly as in `color.rs` (`WHITE = false`,
  `BLACK = true`).
* `Square` is the raw index (`Nat`) into the 120-cell padded board of
  `square.rs`/`position.rs`.
* `BitMove` is the raw 16-bit word of `bit_move.rs`, kept as a `Nat`.
* The linked `Arc<PositionState>` chain of `position_state.rs` is
  represented as a `List StateFrame` whose head is the current state and
  whose tail is the `prev_state` chain.
* Machine arithmetic (`u8` wrapping subtraction in `Square::file`/`rank`,
  release-mode semantics) is made explicit with `% 256`.
-/

namespace Chers

/-- `Color` from `color.rs`: a `bool`; `WHITE = false`, `BLACK = true`. -/
abbrev Color := Bool

/-- `Color::WHITE`. -/
def white : Color := false

/-- `Color::BLACK`. -/
def black : Color := true

/-! ### Piece encoding (`piece.rs`)

`PieceType` constants: pawn 0, knight 1, bishop 2, rook 3, queen 4, king 5.
`Piece` packs a color bit at bit 3 (`COLOR_SHIFT = 3`); `EMPTY = 14`,
`OFF_BOARD = 15`. -/

/-- `Piece::EMPTY` (code 14). -/
def emptyCell : Nat := 14

/-- `Piece::OFF_BOARD` (code 15). -/
def offBoardCell : Nat := 15

/-- `PieceType` codes, as in `piece.rs`. -/
def pawnT : Nat := 0
def knightT : Nat := 1
def bishopT : Nat := 2
def rookT : Nat := 3
def queenT : Nat := 4
def kingT : Nat := 5

/-- `Piece::piece_type`: the low three bits. -/
def pieceTypeOf (p : Nat) : Nat := p &&& 7

/-- `Piece::color`: `Color::from_bool((self.0 >> 3 & 1) == 1)`.
Note that this is total on the cell encoding: `EMPTY = 14` and
`OFF_BOARD = 15` both have bit 3 set, so their "color" is `BLACK`. -/
def colorOf (p : Nat) : Color := ((p >>> 3) &&& 1) == 1

/-- `Piece::is_color`. -/
def isColor (p : Nat) (c : Color) : Bool := colorOf p == c

/-- `Piece::is_type`. -/
def isType (p : Nat) (t : Nat) : Bool := pieceTypeOf p == t

/-- `Piece::is_piece`: `self.0 < Self::EMPTY.0`. -/
def isPiece (p : Nat) : Bool := p < 14

/-- `Piece::new`: `(color.to_u8() << COLOR_SHIFT) + piece_type.to_u8()`. -/
def mkPiece (t : Nat) (c : Color) : Nat := (cond c 1 0) <<< 3 |>.add t

/-- Piece constants (`Piece::W_PAWN` … `Piece::B_KING`). -/
def wPawn : Nat := 0
def wKnight : Nat := 1
def wBishop : Nat := 2
def wRook : Nat := 3
def wQueen : Nat := 4
def wKing : Nat := 5
def bPawn : Nat := 8
def bKnight : Nat := 9
def bBishop : Nat := 10
def bRook : Nat := 11
def bQueen : Nat := 12
def bKing : Nat := 13

/-- `Color::map(self, white, black)`. -/
def colorMap {α : Type} (c : Color) (w b : α) : α := cond c b w

/-! ### Squares (`square.rs`)

A `Square` is the padded-board index.  File and rank use `u8` arithmetic;
`% 10 - 1` and `/ 10 - 2` are wrapping subtractions on `u8` (release-mode
semantics), written out with `% 256`. -/

/-- `Square::file` as a raw `u8` value: `self.0 % 10 - 1` (wrapping). -/
def fileOf (sq : Nat) : Nat := (sq % 10 + 255) % 256

/-- `Square::rank` as a raw `u8` value: `self.0 / 10 - 2` (wrapping). -/
def rankOf (sq : Nat) : Nat := (sq % 256 / 10 + 254) % 256

/-- `Square::new(file, rank) = 21 + file + 10 * rank` (as `u8`). -/
def squareNew (f r : Nat) : Nat := (21 + f + 10 * r) % 256

/-- Named square constants from `square.rs` (the ones the sources name). -/
def sqA1 : Nat := 21
def sqB1 : Nat := 22
def sqC1 : Nat := 23
def sqD1 : Nat := 24
def sqE1 : Nat := 25
def sqF1 : Nat := 26
def sqG1 : Nat := 27
def sqH1 : Nat := 28
def sqA8 : Nat := 91
def sqB8 : Nat := 92
def sqC8 : Nat := 93
def sqD8 : Nat := 94
def sqE8 : Nat := 95
def sqF8 : Nat := 96
def sqG8 : Nat := 97
def sqH8 : Nat := 98

/-- `(index as i8 + offset) as usize` — on-board indices stay within `i8`
range in the source, so this is plain integer addition, clamped at zero
by `Int.toNat` (never hit for on-board indices). -/
def addOff (idx : Nat) (off : Int) : Nat := (idx + off).toNat

/-! ### Move offsets (`position.rs`) -/

def whitePawnOffset : Int := 10
def blackPawnOffset : Int := -10
def whitePawnCaptureOffsets : List Int := [9, 11]
def blackPawnCaptureOffsets : List Int := [-9, -11]
def knightOffsets : List Int := [-21, -19, -12, -8, 8, 12, 19, 21]
def bishopOffsets : List Int := [-11, -9, 9, 11]
def rookOffsets : List Int := [-10, -1, 1, 10]
def kingOffsets : List Int := [-11, -10, -9, -1, 1, 9, 10, 11]

/-! ### Packed moves (`bit_move.rs`)

A `BitMove` is the 16-bit word `origin-code | target-code << 6 | flags << 12`
where a square code is `file | rank << 3`. -/

/-- Flag nibbles from `bit_move.rs`. -/
def flagQuiet : Nat := 0
def flagDoublePawnPush : Nat := 1
def flagKingSideCastle : Nat := 2
def flagQueenSideCastle : Nat := 3
def flagCapture : Nat := 4
def flagEnPassant : Nat := 5
def flagPromotion : Nat := 8

/-- `BitMove::NULL`. -/
def nullMove : Nat := 0

/-- `BitMove::square_to_promotion_code`: `file | rank << 3`. -/
def squareToCode (sq : Nat) : Nat := fileOf sq ||| (rankOf sq <<< 3)

/-- `BitMove::square_from_code`: `Square::new(code & 7, (code >> 3) & 7)`. -/
def squareFromCode (code : Nat) : Nat := squareNew (code &&& 7) ((code >>> 3) &&& 7)

/-- `BitMove::from_flag_bits`. -/
def fromFlagBits (origin target flags : Nat) : Nat :=
  squareToCode origin ||| (squareToCode target <<< 6) ||| (flags <<< 12)

/-- `BitMove::piece_to_code` (the `unreachable!()` arm is mapped to 0;
the generator only ever passes knight/bishop/rook/queen). -/
def pieceToCode (t : Nat) : Nat :=
  if t = knightT then 0 else if t = bishopT then 1
  else if t = rookT then 2 else if t = queenT then 3 else 0

/-- `BitMove::piece_from_code` (code is masked to two bits by the caller). -/
def pieceFromCode (code : Nat) : Nat :=
  if code = 0 then knightT else if code = 1 then bishopT
  else if code = 2 then rookT else queenT

def newQuiet (o t : Nat) : Nat := fromFlagBits o t flagQuiet
def newPawnPush (o t : Nat) : Nat := fromFlagBits o t flagDoublePawnPush
def newCapture (o t : Nat) : Nat := fromFlagBits o t flagCapture
def newEnPassant (o t : Nat) : Nat := fromFlagBits o t flagEnPassant
def newPromotion (o t piece : Nat) : Nat :=
  fromFlagBits o t (flagPromotion ||| pieceToCode piece)
def newPromotionCapture (o t piece : Nat) : Nat :=
  fromFlagBits o t (flagPromotion ||| flagCapture ||| pieceToCode piece)
def newCastleKingside (o t : Nat) : Nat := fromFlagBits o t flagKingSideCastle
def newCastleQueenside (o t : Nat) : Nat := fromFlagBits o t flagQueenSideCastle

/-- `BitMove::flags`. -/
def flagsOf (m : Nat) : Nat := m >>> 12

/-- `BitMove::origin`. -/
def originOf (m : Nat) : Nat := squareFromCode (m &&& 63)

/-- `BitMove::target`. -/
def targetOf (m : Nat) : Nat := squareFromCode ((m >>> 6) &&& 63)

/-- `BitMove::is_capture`. -/
def isCaptureM (m : Nat) : Bool := (flagsOf m &&& flagCapture) != 0

/-- `BitMove::is_quiet`. -/
def isQuietM (m : Nat) : Bool := flagsOf m == 0

/-- `BitMove::is_promotion`. -/
def isPromotionM (m : Nat) : Bool := (flagsOf m &&& flagPromotion) != 0

/-- `BitMove::is_king_side_castle`. -/
def isKingSideCastleM (m : Nat) : Bool := flagsOf m == flagKingSideCastle

/-- `BitMove::is_queen_side_castle`. -/
def isQueenSideCastleM (m : Nat) : Bool := flagsOf m == flagQueenSideCastle

/-- `BitMove::is_en_passant`. -/
def isEnPassantM (m : Nat) : Bool := flagsOf m == flagEnPassant

/-- `BitMove::is_double_push`. -/
def isDoublePushM (m : Nat) : Bool := flagsOf m == flagDoublePawnPush

/-- `BitMove::promotion_piece`. -/
def promotionPieceOf (m : Nat) : Nat := pieceFromCode (flagsOf m &&& 3)

/-! ### Castling rights (`castling_rights.rs` / `fen.rs`)

Modelled as four booleans; `castling_rights.rs` packs the same four rights
into a `u8` bitset with accessor methods of the same names. -/

structure CastlingRights where
  whiteKingSide : Bool
  whiteQueenSide : Bool
  blackKingSide : Bool
  blackQueenSide : Bool
deriving DecidableEq, Repr

/-! ### Position state (`position_state.rs`)

The source keeps an `Arc<PositionState>` chain: each frame stores the
castling rights, en-passant square, halfmove clock, the move that produced
the frame, the captured piece and a link to the previous frame.  We model
the chain as a `List StateFrame` whose head is the current frame. -/

structure StateFrame where
  castlingRights : CastlingRights
  epSquare : Option Nat
  halfmoveClock : Nat
  prevMove : Option Nat
  capturedPiece : Option Nat
deriving DecidableEq, Repr

/-- A default frame, only used as the `getD` fallback for the (unreachable
in the source) case of an empty state chain. -/
def defaultFrame : StateFrame :=
  ⟨⟨false, false, false, false⟩, none, 0, none, none⟩

/-! ### Position (`position.rs`) -/

/-- The 120-cell board array `[BoardState; 120]` (`position.rs`): since
every cell code fits in four bits, the array is represented as a packed
natural number with one hex digit per cell (digit `i` = cell `i`), which
the kernel evaluates with bignum arithmetic. -/
abbrev Board := Nat

/-- Build the packed board from the list of its 120 cells. -/
def packBoard (cells : List Nat) : Board :=
  cells.foldr (fun c acc => acc * 16 + c) 0

/-- Read cell `i`. -/
def boardGet (b : Board) (i : Nat) : Nat := (b >>> (4 * i)) &&& 15

/-- Write cell `i` (`self.pieces[i] = v`). -/
def boardSet (b : Board) (i v : Nat) : Board :=
  b + (v <<< (4 * i)) - (boardGet b i <<< (4 * i))

structure Position where
  board : Board
  kingSquareWhite : Nat
  kingSquareBlack : Nat
  sideToMove : Color
  ply : Nat
  states : List StateFrame
deriving DecidableEq, Repr

namespace Position

/-- `self.pieces[idx]`. -/
def cell (p : Position) (idx : Nat) : Nat := boardGet p.board idx

/-- `self.king_square[color as usize]` (`WHITE = 0`, `BLACK = 1`). -/
def kingSquare (p : Position) (c : Color) : Nat :=
  cond c p.kingSquareBlack p.kingSquareWhite

/-- Write one entry of the king-square cache. -/
def setKingSquare (p : Position) (c : Color) (sq : Nat) : Position :=
  if c then { p with kingSquareBlack := sq } else { p with kingSquareWhite := sq }

/-- `self.state` — the top frame of the undo chain. -/
def curState (p : Position) : StateFrame := p.states.headD defaultFrame

end Position

/-! ### Attack detection (`attack.rs`) -/

/-- One sliding ray of `Position::is_attacked`: walk from `t` by `off`
until a non-empty cell or the off-board sentinel, and test the first
piece hit against the two attacker pieces `p1`/`p2`.  The fuel argument
(always instantiated with 120) only bounds the walk on boards that lack
the sentinel border; with the border present it is never exhausted. -/
def rayAttacks (pos : Position) (off : Int) (p1 p2 : Nat) : Nat → Nat → Bool
  | 0, _ => false
  | fuel + 1, t =>
    let c := pos.cell t
    if c == offBoardCell then false
    else if c != emptyCell then c == p1 || c == p2
    else rayAttacks pos off p1 p2 fuel (addOff t off)

/-- `Position::is_attacked(square, attacker)`. -/
def isAttacked (pos : Position) (square : Nat) (attacker : Color) : Bool :=
  let index := square
  -- pawns
  ((colorMap attacker blackPawnCaptureOffsets whitePawnCaptureOffsets).any
      fun off => pos.cell (addOff index off) == colorMap attacker wPawn bPawn)
  -- knights
  || (knightOffsets.any
      fun off => pos.cell (addOff index off) == colorMap attacker wKnight bKnight)
  -- bishops and queens
  || (bishopOffsets.any
      fun off => rayAttacks pos off (colorMap attacker wBishop bBishop)
        (colorMap attacker wQueen bQueen) 120 (addOff index off))
  -- rooks and queens
  || (rookOffsets.any
      fun off => rayAttacks pos off (colorMap attacker wRook bRook)
        (colorMap attacker wQueen bQueen) 120 (addOff index off))
  -- king
  || (kingOffsets.any
      fun off => pos.cell (addOff index off) == colorMap attacker wKing bKing)

/-- `Position::in_check(side)`. -/
def inCheck (pos : Position) (side : Color) : Bool :=
  isAttacked pos (pos.kingSquare side) (!side)

/-- `Position::is_check()`. -/
def isCheckPos (pos : Position) : Bool := inCheck pos pos.sideToMove

/-! ### Pseudo-legal move generation (`generate_moves.rs`)

Moves are produced in exactly the source's order (the legality filter
below mutates the position candidate by candidate, so order matters). -/

/-- `Position::add_promotion_capture`: pushes queen, rook, bishop, knight. -/
def addPromotionCapture (o t : Nat) : List Nat :=
  [newPromotionCapture o t queenT, newPromotionCapture o t rookT,
   newPromotionCapture o t bishopT, newPromotionCapture o t knightT]

/-- `Position::add_promotion`: pushes queen, rook, bishop, knight. -/
def addPromotion (o t : Nat) : List Nat :=
  [newPromotion o t queenT, newPromotion o t rookT,
   newPromotion o t bishopT, newPromotion o t knightT]

/-- `Position::generate_white_pawn_moves`.  The capture test is
`self.pieces[target].is_color(!self.side_to_move)` — with no
`is_piece` guard, unlike the black version below. -/
def genWhitePawnMoves (pos : Position) (origin : Nat) : List Nat :=
  let index := origin
  let startingRank := rankOf origin == 1   -- Rank::SECOND
  let promotionRank := rankOf origin == 6  -- Rank::SEVENTH
  let captures := whitePawnCaptureOffsets.flatMap fun off =>
    let target := addOff index off
    if isColor (pos.cell target) (!pos.sideToMove) then
      if promotionRank then addPromotionCapture origin target
      else [newCapture origin target]
    else []
  let target := addOff index whitePawnOffset
  let pushes :=
    if pos.cell target == emptyCell then
      (if promotionRank then addPromotion origin target
       else [newQuiet origin target])
      ++ (if startingRank then
            let target2 := addOff index (2 * whitePawnOffset)
            if pos.cell target2 == emptyCell then [newPawnPush origin target2]
            else []
          else [])
    else []
  captures ++ pushes

/-- `Position::generate_black_pawn_moves`.  Here the capture test is
`is_piece() && is_color(!side_to_move)`. -/
def genBlackPawnMoves (pos : Position) (origin : Nat) : List Nat :=
  let index := origin
  let startingRank := rankOf origin == 6   -- Rank::SEVENTH
  let promotionRank := rankOf origin == 1  -- Rank::SECOND
  let captures := blackPawnCaptureOffsets.flatMap fun off =>
    let target := addOff index off
    if isPiece (pos.cell target) && isColor (pos.cell target) (!pos.sideToMove) then
      if promotionRank then addPromotionCapture origin target
      else [newCapture origin target]
    else []
  let target := addOff index blackPawnOffset
  let pushes :=
    if pos.cell target == emptyCell then
      (if promotionRank then addPromotion origin target
       else [newQuiet origin target])
      ++ (if startingRank then
            let target2 := addOff index (2 * blackPawnOffset)
            if pos.cell target2 == emptyCell then [newPawnPush origin target2]
            else []
          else [])
    else []
  captures ++ pushes

/-- Shared body of `generate_knight_moves` and `generate_king_moves`. -/
def genStepperMoves (pos : Position) (origin : Nat) (offsets : List Int) : List Nat :=
  offsets.flatMap fun off =>
    let target := addOff origin off
    let c := pos.cell target
    if c == emptyCell then [newQuiet origin target]
    else if c == offBoardCell then []
    else if isColor c pos.sideToMove then []
    else [newCapture origin target]

/-- One ray of `generate_bishop_moves`/`generate_rook_moves`: quiet moves
for every empty cell passed, a capture on the first enemy piece, nothing
on an own piece or the sentinel.  Fuel as in `rayAttacks`. -/
def slideRay (pos : Position) (origin : Nat) (off : Int) : Nat → Nat → List Nat
  | 0, _ => []
  | fuel + 1, t =>
    let c := pos.cell t
    if c == offBoardCell then []
    else if c != emptyCell then
      if isColor c (!pos.sideToMove) then [newCapture origin t] else []
    else newQuiet origin t :: slideRay pos origin off fuel (addOff t off)

/-- `Position::generate_bishop_moves`. -/
def genBishopMoves (pos : Position) (origin : Nat) : List Nat :=
  bishopOffsets.flatMap fun off => slideRay pos origin off 120 (addOff origin off)

/-- `Position::generate_rook_moves`. -/
def genRookMoves (pos : Position) (origin : Nat) : List Nat :=
  rookOffsets.flatMap fun off => slideRay pos origin off 120 (addOff origin off)

/-- `Position::is_empty_and_not_attacked`. -/
def isEmptyAndNotAttacked (pos : Position) (sq : Nat) : Bool :=
  pos.cell sq == emptyCell && !isAttacked pos sq (!pos.sideToMove)

/-- `Position::generate_castling_moves`. -/
def genCastlingMoves (pos : Position) : List Nat :=
  let cr := pos.curState.castlingRights
  cond pos.sideToMove
    -- Color::BLACK
    ((if cr.blackKingSide then
        if isEmptyAndNotAttacked pos sqF8 && isEmptyAndNotAttacked pos sqG8
            && !isCheckPos pos then
          [newCastleKingside sqE8 sqG8]
        else []
      else [])
      ++
      (if cr.blackQueenSide then
        if pos.cell sqB8 == emptyCell && isEmptyAndNotAttacked pos sqC8
            && isEmptyAndNotAttacked pos sqD8 && !isCheckPos pos then
          [newCastleQueenside sqE8 sqC8]
        else []
      else []))
    -- Color::WHITE
    ((if cr.whiteKingSide then
        if isEmptyAndNotAttacked pos sqF1 && isEmptyAndNotAttacked pos sqG1
            && !isCheckPos pos then
          [newCastleKingside sqE1 sqG1]
        else []
      else [])
      ++
      (if cr.whiteQueenSide then
        if pos.cell sqB1 == emptyCell && isEmptyAndNotAttacked pos sqC1
            && isEmptyAndNotAttacked pos sqD1 && !isCheckPos pos then
          [newCastleQueenside sqE1 sqC1]
        else []
      else []))

/-- `Position::generate_en_passant_moves_white`. -/
def genEnPassantWhite (pos : Position) : List Nat :=
  match pos.curState.epSquare with
  | none => []
  | some sq =>
    blackPawnCaptureOffsets.flatMap fun off =>
      let target := addOff sq off
      if pos.cell target == wPawn then [newEnPassant target sq] else []

/-- `Position::generate_en_passant_moves_black`. -/
def genEnPassantBlack (pos : Position) : List Nat :=
  match pos.curState.epSquare with
  | none => []
  | some sq =>
    whitePawnCaptureOffsets.flatMap fun off =>
      let target := addOff sq off
      if pos.cell target == bPawn then [newEnPassant target sq] else []

/-- Dispatch of `generate_pseudo_legal_moves` for one square.  The source
matches on the piece type (distinguishing white and black pawns); pieces
not of the side to move were already skipped by the caller's
`is_color` test. -/
def genMovesForSquare (pos : Position) (square : Nat) : List Nat :=
  let piece := pos.cell square
  if isColor piece pos.sideToMove then
    let t := pieceTypeOf piece
    if t == pawnT then
      cond (colorOf piece) (genBlackPawnMoves pos square) (genWhitePawnMoves pos square)
    else if t == knightT then genStepperMoves pos square knightOffsets
    else if t == bishopT then genBishopMoves pos square
    else if t == rookT then genRookMoves pos square
    else if t == queenT then genBishopMoves pos square ++ genRookMoves pos square
    else if t == kingT then genStepperMoves pos square kingOffsets
    else []
  else []

/-- `Position::generate_pseudo_legal_moves`: scan the 64 real squares in
file-major order (`for i in 0..8 { for j in 0..8 }`), then castling
moves, then en passant moves. -/
def genPseudoLegalMoves (pos : Position) : List Nat :=
  ((List.range 8).flatMap fun i =>
    (List.range 8).flatMap fun j =>
      genMovesForSquare pos (squareNew i j))
  ++ genCastlingMoves pos
  ++ cond pos.sideToMove (genEnPassantBlack pos) (genEnPassantWhite pos)

/-! ### Make / unmake (`position.rs`) -/

/-- The `remove_castling_rights` closure in `make_bit_move`: clears the
rights associated with the king/rook home squares, leaves everything
else alone. -/
def removeCastlingRightsSq (cr : CastlingRights) (sq : Nat) : CastlingRights :=
  if sq = sqA1 then { cr with whiteQueenSide := false }
  else if sq = sqE1 then { cr with whiteQueenSide := false, whiteKingSide := false }
  else if sq = sqH1 then { cr with whiteKingSide := false }
  else if sq = sqA8 then { cr with blackQueenSide := false }
  else if sq = sqE8 then { cr with blackQueenSide := false, blackKingSide := false }
  else if sq = sqH8 then { cr with blackKingSide := false }
  else cr

/-- Write a board cell (`self.pieces[i] = v`). -/
def bset (b : Board) (i v : Nat) : Board := boardSet b i v

/-! `Position::make_bit_move` is translated as one definition per local
binding of the source, combined at the end.  All components read the
pre-move position, exactly as the source computes them before mutating
the board. -/

/-- The piece on the move's origin square. -/
def moverPiece (pos : Position) (m : Nat) : Nat := pos.cell (originOf m)

/-- The new halfmove clock: reset on a capture or a pawn move. -/
def makeHalfmove (pos : Position) (m : Nat) : Nat :=
  if isCaptureM m || isType (moverPiece pos m) pawnT then 0
  else pos.curState.halfmoveClock + 1

/-- The new en-passant square: only on a double pawn push
(`Square::new(target.file, color.map(Rank::Third, Rank::Sixth))`). -/
def makeEpSquare (pos : Position) (m : Nat) : Option Nat :=
  if isDoublePushM m then
    some (squareNew (fileOf (targetOf m)) (colorMap (colorOf (moverPiece pos m)) 2 5))
  else none

/-- The square actually captured on: one rank behind the target for en
passant (the rank arithmetic is `u8`), else the target itself. -/
def makeCaptureField (pos : Position) (m : Nat) : Nat :=
  if isEnPassantM m then
    if colorOf (moverPiece pos m) == white then
      squareNew (fileOf (targetOf m)) ((rankOf (targetOf m) + 255) % 256)
    else
      squareNew (fileOf (targetOf m)) (rankOf (targetOf m) + 1)
  else targetOf m

/-- The captured piece recorded in the undo frame. -/
def makeCapturedPiece (pos : Position) (m : Nat) : Option Nat :=
  if isCaptureM m then
    let c := pos.cell (makeCaptureField pos m)
    if isPiece c then some c else none
  else none

/-- The piece written to the target square: the promotion piece on a
promotion, else the moving piece. -/
def makePlacedPiece (pos : Position) (m : Nat) : Nat :=
  if isPromotionM m then mkPiece (promotionPieceOf m) (colorOf (moverPiece pos m))
  else moverPiece pos m

/-- The castling rights after clearing for origin and target. -/
def makeRights (pos : Position) (m : Nat) : CastlingRights :=
  removeCastlingRightsSq
    (removeCastlingRightsSq pos.curState.castlingRights (originOf m)) (targetOf m)

/-- The undo frame pushed by `make_bit_move`. -/
def makeFrame (pos : Position) (m : Nat) : StateFrame :=
  ⟨makeRights pos m, makeEpSquare pos m, makeHalfmove pos m,
   some m, makeCapturedPiece pos m⟩

/-- `if m.origin() == self.king_square[mover] { king_square[mover] = m.target() }`,
for the white entry of the cache. -/
def makeKsW (pos : Position) (m : Nat) : Nat :=
  if pos.sideToMove == white && originOf m == pos.kingSquare pos.sideToMove then
    targetOf m
  else pos.kingSquareWhite

/-- The black entry of the king-square cache after the move. -/
def makeKsB (pos : Position) (m : Nat) : Nat :=
  if pos.sideToMove == black && originOf m == pos.kingSquare pos.sideToMove then
    targetOf m
  else pos.kingSquareBlack

/-- The board after the move.  The castle branches of the source return
early after rewriting the four affected cells; the normal path clears
the capture square, writes the (possibly promoted) piece to the target
and empties the origin. -/
def makeBoard (pos : Position) (m : Nat) : Board :=
  let p := moverPiece pos m
  if colorOf p == white then
    if isKingSideCastleM m then
      bset (bset (bset (bset pos.board sqF1 (pos.cell sqH1))
        sqG1 p) sqE1 emptyCell) sqH1 emptyCell
    else if isQueenSideCastleM m then
      bset (bset (bset (bset pos.board sqD1 (pos.cell sqA1))
        sqC1 p) sqE1 emptyCell) sqA1 emptyCell
    else
      bset (bset (bset pos.board (makeCaptureField pos m) emptyCell)
        (targetOf m) (makePlacedPiece pos m)) (originOf m) emptyCell
  else
    if isKingSideCastleM m then
      bset (bset (bset (bset pos.board sqF8 (pos.cell sqH8))
        sqG8 p) sqE8 emptyCell) sqH8 emptyCell
    else if isQueenSideCastleM m then
      bset (bset (bset (bset pos.board sqD8 (pos.cell sqA8))
        sqC8 p) sqE8 emptyCell) sqA8 emptyCell
    else
      bset (bset (bset pos.board (makeCaptureField pos m) emptyCell)
        (targetOf m) (makePlacedPiece pos m)) (originOf m) emptyCell

/-- `Position::make_bit_move`.  If the origin square holds no piece the
whole body is skipped and the position is returned unchanged (the
source's `if let BoardState::Piece(p)` has no `else`). -/
def makeBitMove (pos : Position) (m : Nat) : Position :=
  if isPiece (moverPiece pos m) then
    { board := makeBoard pos m,
      kingSquareWhite := makeKsW pos m,
      kingSquareBlack := makeKsB pos m,
      sideToMove := !pos.sideToMove,
      ply := pos.ply + 1,
      states := makeFrame pos m :: pos.states }
  else pos

/-- `Position::undo_move`.  The source panics (`unwrap`, or the `u16`
decrement of `ply` in a debug build) when no move has been played;
those fatal paths are `none` here. -/
def undoMove (pos : Position) : Option Position :=
  if pos.ply = 0 then none
  else
    let side' := !pos.sideToMove
    let ply' := pos.ply - 1
    match pos.curState.prevMove with
    | none => none
    | some m =>
      let p := pos.cell (targetOf m)
      if isPiece p then
        let captureField :=
          if isEnPassantM m then
            if side' == white then
              squareNew (fileOf (targetOf m)) ((rankOf (targetOf m) + 255) % 256)
            else
              squareNew (fileOf (targetOf m)) (rankOf (targetOf m) + 1)
          else targetOf m
        let piece := if isPromotionM m then mkPiece pawnT (colorOf p) else p
        let captured :=
          match pos.curState.capturedPiece with
          | some c => c
          | none => emptyCell
        let base := { pos with sideToMove := side', ply := ply' }
        let base :=
          if targetOf m = base.kingSquare side' then
            base.setKingSquare side' (originOf m)
          else base
        match pos.states with
        | [] => none
        | [_] => none  -- `prev_state.unwrap()` panics
        | _ :: rest =>
          let base := { base with states := rest }
          if colorOf p == white then
            if isKingSideCastleM m then
              let b := bset base.board sqH1 (pos.cell sqF1)
              let b := bset b sqE1 p
              let b := bset b sqF1 emptyCell
              let b := bset b sqG1 emptyCell
              some { base with board := b }
            else if isQueenSideCastleM m then
              let b := bset base.board sqA1 (pos.cell sqD1)
              let b := bset b sqE1 p
              let b := bset b sqC1 emptyCell
              let b := bset b sqD1 emptyCell
              some { base with board := b }
            else
              let b := bset base.board (targetOf m) emptyCell
              let b := bset b (originOf m) piece
              let b := bset b captureField captured
              some { base with board := b }
          else
            if isKingSideCastleM m then
              let b := bset base.board sqH8 (pos.cell sqF8)
              let b := bset b sqE8 p
              let b := bset b sqF8 emptyCell
              let b := bset b sqG8 emptyCell
              some { base with board := b }
            else if isQueenSideCastleM m then
              let b := bset base.board sqA8 (pos.cell sqD8)
              let b := bset b sqE8 p
              let b := bset b sqC8 emptyCell
              let b := bset b sqD8 emptyCell
              some { base with board := b }
            else
              let b := bset base.board (targetOf m) emptyCell
              let b := bset b (originOf m) piece
              let b := bset b captureField captured
              some { base with board := b }
      else
        -- `if let BoardState::Piece(p)` fails: only side and ply changed
        some { pos with sideToMove := side', ply := ply' }

/-- Total version of `undoMove` used inside loops that, in the source,
only ever undo a move they just made (so the `Option` is always `some`). -/
def undoMoveT (pos : Position) : Position := (undoMove pos).getD pos

/-! ### Legal move generation (`generate_moves.rs`) -/

/-- The filter of `generate_legal_moves`: for each candidate make it,
test `!in_check(!side_to_move)` (the mover), undo it, and keep the
candidate if the king was safe.  The position is threaded through the
make/undo pairs exactly as the `&mut self` receiver is in the source;
the final position is returned alongside the kept moves. -/
def legalFilter (pos : Position) : List Nat → List Nat × Position
  | [] => ([], pos)
  | m :: ms =>
    let p1 := makeBitMove pos m
    let keep := !inCheck p1 (!p1.sideToMove)
    let p2 := undoMoveT p1
    let (rest, pf) := legalFilter p2 ms
    (if keep then m :: rest else rest, pf)

/-- `Position::generate_legal_moves` (the returned move list). -/
def generateLegalMoves (pos : Position) : List Nat :=
  (legalFilter pos (genPseudoLegalMoves pos)).1

/-- The state of the `&mut self` receiver after `generate_legal_moves`
returns. -/
def generateLegalMovesPos (pos : Position) : Position :=
  (legalFilter pos (genPseudoLegalMoves pos)).2

/-! ### Perft (`perft.rs`) -/

/-- `perft`: leaf-node counter; each move is applied to a clone. -/
def perft (pos : Position) : Nat → Nat
  | 0 => 1
  | 1 => (generateLegalMoves pos).length
  | d + 2 =>
    (generateLegalMoves pos).foldl
      (fun count m => count + perft (makeBitMove pos m) (d + 1)) 0

/-! ### Search (`search.rs`)

`search.rs` refers to three things that are not under `src/`:
`utils::INF`, `Position::evaluate`, and the boolean `captures_only`
parameter of `generate_pseudo_legal_moves`.  They are modelled from the
spec below; everything else mirrors `search.rs`. -/

/-- Modelled from the spec: `utils::INF` is missing from the sources; the
spec calls it "a large negative 'checkmate' sentinel" (negated), so any
constant dominating every static evaluation works.  We use 1000000. -/
def INF : Int := 1000000

/-- Modelled from the spec: piece values for the static evaluation
(missing from the sources).  Standard material values in centipawns;
kings carry no material value. -/
def pieceValue (t : Nat) : Int :=
  if t = pawnT then 100 else if t = knightT then 300
  else if t = bishopT then 300 else if t = rookT then 500
  else if t = queenT then 900 else 0

/-- The 64 real squares, in the same file-major order as the move scan. -/
def realSquares : List Nat :=
  (List.range 8).flatMap fun i => (List.range 8).map fun j => squareNew i j

/-- Total material of one color. -/
def materialFor (pos : Position) (c : Color) : Int :=
  realSquares.foldl
    (fun acc sq =>
      let cc := pos.cell sq
      if isPiece cc && isColor cc c then acc + pieceValue (pieceTypeOf cc) else acc)
    0

/-- Modelled from the spec: `Position::evaluate` is missing from the
sources.  The spec's negamax requires a side-to-move-relative static
evaluation whose magnitude is dominated by the checkmate sentinel, and
quiescence search treats it as a material count ("captures strictly
reduce the remaining material").  We take the material balance from the
side to move's perspective. -/
def evaluate (pos : Position) : Int :=
  materialFor pos pos.sideToMove - materialFor pos (!pos.sideToMove)

/-- Modelled from the spec: `generate_pseudo_legal_moves(captures_only)`
as called by `search.rs`; the version under `src/` takes no flag.  With
`captures_only` set, quiescence search shall "only try capture moves". -/
def genPseudoLegalMovesB (pos : Position) (capturesOnly : Bool) : List Nat :=
  if capturesOnly then (genPseudoLegalMoves pos).filter isCaptureM
  else genPseudoLegalMoves pos

/-- Insert into an ascending list, after any equal elements
(`slice::sort` is stable and ascending). -/
def insertAsc (m : Nat) : List Nat → List Nat
  | [] => [m]
  | x :: xs => if m < x then m :: x :: xs else x :: insertAsc m xs

/-- `moves.sort()`: ascending by the packed 16-bit value. -/
def sortMoves (l : List Nat) : List Nat := l.foldr insertAsc []

/-- The capture loop of `quiescence_search`, threading the `&mut self`
receiver: make, skip if the mover is left in check, score the move by
the negated static evaluation of the resulting position, undo; `beta`
cutoff, else raise `alpha`. -/
def qLoop (beta : Int) : List Nat → Position → Int → Int × Position
  | [], pos, alpha => (alpha, pos)
  | m :: ms, pos, alpha =>
    let p1 := makeBitMove pos m
    if inCheck p1 (!p1.sideToMove) then qLoop beta ms (undoMoveT p1) alpha
    else
      let ev := -evaluate p1
      let p2 := undoMoveT p1
      if beta ≤ ev then (beta, p2)
      else qLoop beta ms p2 (max alpha ev)

/-- `Position::quiescence_search`. -/
def quiescenceSearch (pos : Position) (alpha beta : Int) : Int × Position :=
  let ev := evaluate pos
  if beta ≤ ev then (beta, pos)
  else
    qLoop beta (sortMoves (genPseudoLegalMovesB pos true)) pos (max alpha ev)

/-- The move loop of `negamax`, parameterised by the recursive call for
the next depth; threads the position, tracks `any_legal_move`, applies
the fail-hard beta cutoff, and produces the checkmate/stalemate scores
when no move was legal. -/
def nmLoop (recNext : Position → Int → Int → Int × Position) (beta : Int) :
    List Nat → Position → Int → Bool → Int × Position
  | [], pos, alpha, anyLegal =>
    (if anyLegal then alpha else if isCheckPos pos then -INF else 0, pos)
  | m :: ms, pos, alpha, anyLegal =>
    let p1 := makeBitMove pos m
    if inCheck p1 (!p1.sideToMove) then
      nmLoop recNext beta ms (undoMoveT p1) alpha anyLegal
    else
      let r := recNext p1 (-beta) (-alpha)
      let ev := -r.1
      let p2 := undoMoveT r.2
      if beta ≤ ev then (beta, p2)
      else nmLoop recNext beta ms p2 (max alpha ev) true

/-- `Position::negamax`. -/
def negamax : Nat → Position → Int → Int → Int × Position
  | 0, pos, alpha, beta => quiescenceSearch pos alpha beta
  | d + 1, pos, alpha, beta =>
    nmLoop (negamax d) beta (sortMoves (genPseudoLegalMovesB pos false)) pos alpha false

/-- The root loop of `search`: note that `negamax` is called with the
same `depth`, not `depth - 1`. -/
def searchLoop (depth : Nat) : List Nat → Position → Int → Nat → Nat
  | [], _, _, best => best
  | m :: ms, pos, mx, best =>
    let p1 := makeBitMove pos m
    let r := negamax depth p1 (-INF) INF
    let score := -r.1
    let p2 := undoMoveT r.2
    if mx < score then searchLoop depth ms p2 score m
    else searchLoop depth ms p2 mx best

/-- `Position::search`: best root move, starting from `BitMove::NULL`. -/
def search (pos : Position) (depth : Nat) : Nat :=
  let lm := legalFilter pos (genPseudoLegalMoves pos)
  searchLoop depth lm.1 lm.2 (-INF) nullMove

/-! ### The claim's recursive quiescence (specification-side)

`spec.md` describes quiescence as recursing on captures ("same
legality-skip/recurse-by-negation/undo pattern, no further depth
decrement").  The following definition follows the spec's words, to be
compared with `quiescenceSearch` above; the fuel argument only serves
termination (the spec argues termination by material decrease) and is
instantiated large enough to never run out on the inputs considered. -/

/-- The capture loop of the spec's quiescence, parameterised by the
recursive call. -/
def qsLoop (recQ : Position → Int → Int → Int × Position) (beta : Int) :
    List Nat → Position → Int → Int × Position
  | [], pos, alpha => (alpha, pos)
  | m :: ms, pos, alpha =>
    let p1 := makeBitMove pos m
    if inCheck p1 (!p1.sideToMove) then qsLoop recQ beta ms (undoMoveT p1) alpha
    else
      let r := recQ p1 (-beta) (-alpha)
      let ev := -r.1
      let p2 := undoMoveT r.2
      if beta ≤ ev then (beta, p2)
      else qsLoop recQ beta ms p2 (max alpha ev)

/-- Modelled from the spec: quiescence that scores each capture by
recursively applying itself to the resulting position with a negated
and swapped window. -/
def quiescenceSpecRec : Nat → Position → Int → Int → Int × Position
  | 0, pos, alpha, _ => (alpha, pos)
  | fuel + 1, pos, alpha, beta =>
    let ev := evaluate pos
    if beta ≤ ev then (beta, pos)
    else qsLoop (quiescenceSpecRec fuel) beta
      (sortMoves (genPseudoLegalMovesB pos true)) pos (max alpha ev)

/-! ### Castling conditions as the spec words them (specification-side)

"A castling move is generated if and only if the corresponding
castling-rights bit is set, the king is not currently in check, every
square between king and rook is empty, and every square the king
transits (including its landing square) is not attacked by the
opponent." -/

/-- The castle move emitted for a color/side combination. -/
def castleMoveOf (c : Color) (kingside : Bool) : Nat :=
  cond c
    (cond kingside (newCastleKingside sqE8 sqG8) (newCastleQueenside sqE8 sqC8))
    (cond kingside (newCastleKingside sqE1 sqG1) (newCastleQueenside sqE1 sqC1))

/-- The corresponding castling-rights bit. -/
def rightsBit (cr : CastlingRights) (c : Color) (kingside : Bool) : Bool :=
  cond c (cond kingside cr.blackKingSide cr.blackQueenSide)
    (cond kingside cr.whiteKingSide cr.whiteQueenSide)

/-- The squares between king and rook. -/
def betweenSquares (c : Color) (kingside : Bool) : List Nat :=
  cond c (cond kingside [sqF8, sqG8] [sqB8, sqC8, sqD8])
    (cond kingside [sqF1, sqG1] [sqB1, sqC1, sqD1])

/-- The squares the king transits, its landing square included. -/
def transitSquares (c : Color) (kingside : Bool) : List Nat :=
  cond c (cond kingside [sqF8, sqG8] [sqD8, sqC8])
    (cond kingside [sqF1, sqG1] [sqD1, sqC1])

/-- The spec's condition for generating a castle move of color `c` (the
side to move) to side `kingside`. -/
def castlingSpecCond (pos : Position) (c : Color) (kingside : Bool) : Prop :=
  pos.sideToMove = c
  ∧ rightsBit pos.curState.castlingRights c kingside = true
  ∧ inCheck pos c = false
  ∧ (∀ sq ∈ betweenSquares c kingside, pos.cell sq = emptyCell)
  ∧ (∀ sq ∈ transitSquares c kingside, isAttacked pos sq (!c) = false)

/-! ### Concrete positions

Positions are built directly from validated fields, as the spec's
"construct-from-validated-fields → Position" interface describes (FEN
parsing is an excluded adapter).  Board cells use the `u8` codes:
`15` off-board, `14` empty, white P N B R Q K = 0 1 2 3 4 5,
black p n b r q k = 8 9 10 11 12 13. -/

/-- An all-rights, fresh state frame (castling `KQkq`, no en passant). -/
def initFrame : StateFrame := ⟨⟨true, true, true, true⟩, none, 0, none, none⟩

/-- The standard starting position
`rnbqkbnr/pppppppp/8/8/8/8/PPPPPPPP/RNBQKBNR w KQkq - 0 1`. -/
def startPos : Position :=
  { board := packBoard
      [15, 15, 15, 15, 15, 15, 15, 15, 15, 15,
       15, 15, 15, 15, 15, 15, 15, 15, 15, 15,
       15,  3,  1,  2,  4,  5,  2,  1,  3, 15,
       15,  0,  0,  0,  0,  0,  0,  0,  0, 15,
       15, 14, 14, 14, 14, 14, 14, 14, 14, 15,
       15, 14, 14, 14, 14, 14, 14, 14, 14, 15,
       15, 14, 14, 14, 14, 14, 14, 14, 14, 15,
       15, 14, 14, 14, 14, 14, 14, 14, 14, 15,
       15,  8,  8,  8,  8,  8,  8,  8,  8, 15,
       15, 11,  9, 10, 12, 13, 10,  9, 11, 15,
       15, 15, 15, 15, 15, 15, 15, 15, 15, 15,
       15, 15, 15, 15, 15, 15, 15, 15, 15, 15],
    kingSquareWhite := sqE1,
    kingSquareBlack := sqE8,
    sideToMove := white,
    ply := 1,
    states := [initFrame] }

/-- A state frame with no castling rights and no en-passant square. -/
def bareFrame : StateFrame := ⟨⟨false, false, false, false⟩, none, 0, none, none⟩

/-- White: Kh8, Pa2.  Black: Kb6, Rg1.  White to move, no castling
rights (`7k/8/1k6/.../6r1`-like; black king far from the action). -/
def c1Pos : Position :=
  { board := packBoard
      [15, 15, 15, 15, 15, 15, 15, 15, 15, 15,
       15, 15, 15, 15, 15, 15, 15, 15, 15, 15,
       15, 14, 14, 14, 14, 14, 14, 11, 14, 15,
       15,  0, 14, 14, 14, 14, 14, 14, 14, 15,
       15, 14, 14, 14, 14, 14, 14, 14, 14, 15,
       15, 14, 14, 14, 14, 14, 14, 14, 14, 15,
       15, 14, 14, 14, 14, 14, 14, 14, 14, 15,
       15, 14, 13, 14, 14, 14, 14, 14, 14, 15,
       15, 14, 14, 14, 14, 14, 14, 14, 14, 15,
       15, 14, 14, 14, 14, 14, 14, 14,  5, 15,
       15, 15, 15, 15, 15, 15, 15, 15, 15, 15,
       15, 15, 15, 15, 15, 15, 15, 15, 15, 15],
    kingSquareWhite := sqH8, kingSquareBlack := 72,
    sideToMove := white, ply := 1,
    states := [bareFrame] }

/-- White: Qa1, Kh1.  Black: Pb2, Rb8, Kh8.  White to move.  White's
only capture is Qa1xb2; the pawn is defended by the rook on b8. -/
def c5Pos : Position :=
  { board := packBoard
      [15, 15, 15, 15, 15, 15, 15, 15, 15, 15,
       15, 15, 15, 15, 15, 15, 15, 15, 15, 15,
       15,  4, 14, 14, 14, 14, 14, 14,  5, 15,
       15, 14,  8, 14, 14, 14, 14, 14, 14, 15,
       15, 14, 14, 14, 14, 14, 14, 14, 14, 15,
       15, 14, 14, 14, 14, 14, 14, 14, 14, 15,
       15, 14, 14, 14, 14, 14, 14, 14, 14, 15,
       15, 14, 14, 14, 14, 14, 14, 14, 14, 15,
       15, 14, 14, 14, 14, 14, 14, 14, 14, 15,
       15, 14, 11, 14, 14, 14, 14, 14, 13, 15,
       15, 15, 15, 15, 15, 15, 15, 15, 15, 15,
       15, 15, 15, 15, 15, 15, 15, 15, 15, 15],
    kingSquareWhite := sqH1, kingSquareBlack := sqH8,
    sideToMove := white, ply := 1,
    states := [bareFrame] }

/-- White: Rb1, Kg6, Pf7.  Black: Kh8, Pa3.  Black to move.  Black's
only legal move is a3a2 (the king is boxed in by Kg6 and Pf7), after
which white mates with Rb1-b8. -/
def c6Pos : Position :=
  { board := packBoard
      [15, 15, 15, 15, 15, 15, 15, 15, 15, 15,
       15, 15, 15, 15, 15, 15, 15, 15, 15, 15,
       15, 14,  3, 14, 14, 14, 14, 14, 14, 15,
       15, 14, 14, 14, 14, 14, 14, 14, 14, 15,
       15,  8, 14, 14, 14, 14, 14, 14, 14, 15,
       15, 14, 14, 14, 14, 14, 14, 14, 14, 15,
       15, 14, 14, 14, 14, 14, 14, 14, 14, 15,
       15, 14, 14, 14, 14, 14, 14,  5, 14, 15,
       15, 14, 14, 14, 14, 14,  0, 14, 14, 15,
       15, 14, 14, 14, 14, 14, 14, 14, 13, 15,
       15, 15, 15, 15, 15, 15, 15, 15, 15, 15,
       15, 15, 15, 15, 15, 15, 15, 15, 15, 15],
    kingSquareWhite := 77, kingSquareBlack := sqH8,
    sideToMove := black, ply := 1,
    states := [bareFrame] }

/-- Black's single legal move in `c6Pos`: the pawn push a3a2. -/
def c6Move : Nat := newQuiet 41 31

/-! A ten-ply game from the starting position:
1. d2d4 a7a6  2. Ke1d2 a6a5  3. Kd2c3 h7h6  4. Kc3b3 h6h5  5. Kb3a4 h5h4.
It leaves the white king on a4 with the white h2 pawn still at home,
white to move. -/

def gm1 : Nat := newPawnPush 34 54  -- d2d4
def gm2 : Nat := newQuiet 81 71     -- a7a6
def gm3 : Nat := newQuiet 25 34     -- Ke1d2
def gm4 : Nat := newQuiet 71 61     -- a6a5
def gm5 : Nat := newQuiet 34 43     -- Kd2c3
def gm6 : Nat := newQuiet 88 78     -- h7h6
def gm7 : Nat := newQuiet 43 42     -- Kc3b3
def gm8 : Nat := newQuiet 78 68     -- h6h5
def gm9 : Nat := newQuiet 42 51     -- Kb3a4
def gm10 : Nat := newQuiet 68 58    -- h5h4

def gp1 : Position := makeBitMove startPos gm1
def gp2 : Position := makeBitMove gp1 gm2
def gp3 : Position := makeBitMove gp2 gm3
def gp4 : Position := makeBitMove gp3 gm4
def gp5 : Position := makeBitMove gp4 gm5
def gp6 : Position := makeBitMove gp5 gm6
def gp7 : Position := makeBitMove gp6 gm7
def gp8 : Position := makeBitMove gp7 gm8
def gp9 : Position := makeBitMove gp8 gm9

/-- The position after the ten-ply game above. -/
def c2Pos : Position := makeBitMove gp9 gm10

/-- The pawn "capture" generated for the h2 pawn toward the off-board
sentinel index 49, whose encoded target decodes to a4 — the square of
the white king in `c2Pos`. -/
def c2Move : Nat := newCapture 38 49

/-- Positions reachable from `p0` by applying moves returned as legal. -/
inductive ReachableFrom (p0 : Position) : Position → Prop where
  | base : ReachableFrom p0 p0
  | step {p : Position} {m : Nat} : ReachableFrom p0 p →
      m ∈ generateLegalMoves p → ReachableFrom p0 (makeBitMove p m)

/-- A proper square of the playing area: padded-board index of one of
the 64 real cells. -/
abbrev ValidSquare (sq : Nat) : Prop :=
  21 ≤ sq ∧ sq ≤ 98 ∧ 1 ≤ sq % 10 ∧ sq % 10 ≤ 8

/-! ## Theorems -/

set_option maxRecDepth 1000000
set_option maxHeartbeats 4000000

/-- C3: perft applied to the standard starting position does not return
20 at depth 1: the white pawns' diagonal "capture" test
`pieces[target].is_color(!side_to_move)` is satisfied by `EMPTY` (code
14) and `OFF_BOARD` (code 15) cells, whose color bit is set, so every
white pawn contributes capture moves toward its empty diagonal
neighbours (and, for the a2/h2 pawns, toward the border sentinels),
all of which survive the legality filter: the move count is 36. -/
theorem c3_perft_start_depth1_eq_36 : perft startPos 1 = 36 := by decide

/-- C4: pseudo-legal generation emits the pawn capture a2xb3 toward the
empty cell b3 (index 42), and a pawn capture from a2 toward the
off-board sentinel index 40, in the starting position. -/
theorem c4_pawn_capture_toward_empty_and_offboard :
    newCapture 31 42 ∈ genPseudoLegalMoves startPos
    ∧ startPos.cell 42 = emptyCell
    ∧ newCapture 31 40 ∈ genPseudoLegalMoves startPos
    ∧ startPos.cell 40 = offBoardCell := by
  refine ⟨by decide, by decide, by decide, by decide⟩

/-- C1: in `c1Pos` (white Kh8 and Pa2, black Kb6 and Rg1, white to
move), `generate_legal_moves` keeps the king move h8-g7 even though it
moves the king onto a square attacked by the rook on g1: while
filtering, the junk pawn capture from a2 whose encoded target decodes
to h8 makes `undo_move` overwrite the white king-square cache (its
target equals the king's square), so all later candidates are tested
against a stale king square. -/
theorem c1_legal_move_leaves_king_attacked :
    newQuiet sqH8 87 ∈ generateLegalMoves c1Pos
    ∧ inCheck (makeBitMove c1Pos (newQuiet sqH8 87)) c1Pos.sideToMove = true := by
  refine ⟨by decide, by decide⟩

/-- C7 counterexample: calling `make` with a move whose origin square is
empty (e4e5 in the starting position) does not halt: it silently
returns with the position unchanged. -/
theorem c7_make_empty_origin_silent :
    makeBitMove startPos (newQuiet 55 65) = startPos
    ∧ isPiece (startPos.cell 55) = false := by
  refine ⟨by decide, by decide⟩

/-- C7 amended: `make` with a move whose origin square holds no piece
silently leaves the position unchanged (no halt), while `undo` with an
empty history does fail fatally (modelled as `none`). -/
theorem c7_make_silent_undo_fatal :
    (∀ pos m, isPiece (pos.cell (originOf m)) = false → makeBitMove pos m = pos)
    ∧ (∀ pos : Position, pos.curState.prevMove = none → undoMove pos = none) := by
  constructor
  · intro pos m h
    unfold makeBitMove moverPiece
    rw [h]
    rfl
  · intro pos h
    by_cases hply : pos.ply = 0 <;> simp [undoMove, hply, h]

/-- C7 witness: the amended statement applied to the starting position
and the move e4e5. -/
theorem c7_make_silent_undo_fatal_witness :
    makeBitMove startPos (newQuiet 55 65) = startPos
    ∧ undoMove startPos = none :=
  ⟨c7_make_silent_undo_fatal.1 startPos (newQuiet 55 65) (by decide),
   c7_make_silent_undo_fatal.2 startPos (by decide)⟩

/-- `remove_castling_rights` can only clear rights, never set them. -/
theorem removeCastlingRightsSq_le (cr : CastlingRights) (sq : Nat) :
    (removeCastlingRightsSq cr sq).whiteKingSide ≤ cr.whiteKingSide
    ∧ (removeCastlingRightsSq cr sq).whiteQueenSide ≤ cr.whiteQueenSide
    ∧ (removeCastlingRightsSq cr sq).blackKingSide ≤ cr.blackKingSide
    ∧ (removeCastlingRightsSq cr sq).blackQueenSide ≤ cr.blackQueenSide := by
  unfold removeCastlingRightsSq
  split_ifs <;> simp

/-- The state pushed by a successful `make_bit_move` carries the rights
of the previous top frame, filtered through `remove_castling_rights`
for origin and target. -/
theorem makeBitMove_castlingRights (pos : Position) (m : Nat) :
    (makeBitMove pos m).curState.castlingRights
      = pos.curState.castlingRights
    ∨ (makeBitMove pos m).curState.castlingRights
      = removeCastlingRightsSq
          (removeCastlingRightsSq pos.curState.castlingRights (originOf m))
          (targetOf m) := by
  unfold makeBitMove
  split
  · right; rfl
  · left; rfl

/-- C10: castling rights are monotonically non-increasing under `make`:
a right that is false before the move is still false afterwards. -/
theorem c10_castling_rights_monotone (pos : Position) (m : Nat) :
    (makeBitMove pos m).curState.castlingRights.whiteKingSide
      ≤ pos.curState.castlingRights.whiteKingSide
    ∧ (makeBitMove pos m).curState.castlingRights.whiteQueenSide
      ≤ pos.curState.castlingRights.whiteQueenSide
    ∧ (makeBitMove pos m).curState.castlingRights.blackKingSide
      ≤ pos.curState.castlingRights.blackKingSide
    ∧ (makeBitMove pos m).curState.castlingRights.blackQueenSide
      ≤ pos.curState.castlingRights.blackQueenSide := by
  rcases makeBitMove_castlingRights pos m with h | h <;> rw [h]
  · exact ⟨le_refl _, le_refl _, le_refl _, le_refl _⟩
  · have h1 := removeCastlingRightsSq_le
      (removeCastlingRightsSq pos.curState.castlingRights (originOf m)) (targetOf m)
    have h2 := removeCastlingRightsSq_le pos.curState.castlingRights (originOf m)
    exact ⟨le_trans h1.1 h2.1, le_trans h1.2.1 h2.2.1,
      le_trans h1.2.2.1 h2.2.2.1, le_trans h1.2.2.2 h2.2.2.2⟩

/-- A bitwise-or is at least its right operand. -/
theorem aux_le_or_right (x y : Nat) : y ≤ x ||| y := by
  have h : (x ||| y) &&& y = y := by
    apply Nat.eq_of_testBit_eq
    intro i
    rw [Nat.testBit_and, Nat.testBit_or]
    cases x.testBit i <;> cases y.testBit i <;> rfl
  calc y = (x ||| y) &&& y := h.symm
    _ ≤ x ||| y := Nat.and_le_left

/-- Square codes of proper squares are six-bit values. -/
theorem aux_squareToCode_lt (sq : Nat) (h : ValidSquare sq) : squareToCode sq < 64 := by
  obtain ⟨h1, h2, h3, h4⟩ := h
  have hf : fileOf sq < 8 := by unfold fileOf; omega
  have hr : rankOf sq <<< 3 < 64 := by
    have : rankOf sq < 8 := by unfold rankOf; omega
    rw [Nat.shiftLeft_eq]
    norm_num
    omega
  have := Nat.or_lt_two_pow (n := 6)
    (lt_of_lt_of_le hf (by norm_num)) (lt_of_lt_of_le hr (by norm_num))
  simpa using this

/-- Packed moves with a flag nibble below 8 stay below `2 ^ 15`. -/
theorem aux_fromFlagBits_lt (o t f : Nat) (ho : squareToCode o < 64)
    (ht : squareToCode t < 64) (hf : f <<< 12 < 32768) :
    fromFlagBits o t f < 32768 := by
  unfold fromFlagBits
  have h1 : squareToCode o < 2 ^ 15 := lt_of_lt_of_le ho (by norm_num)
  have h2 : squareToCode t <<< 6 < 2 ^ 15 := by
    rw [Nat.shiftLeft_eq]
    norm_num
    omega
  have h3 : f <<< 12 < 2 ^ 15 := lt_of_lt_of_le hf (by norm_num)
  have := Nat.or_lt_two_pow (n := 15) (Nat.or_lt_two_pow (n := 15) h1 h2) h3
  simpa using this

/-- A packed move is at least its shifted flag nibble. -/
theorem aux_fromFlagBits_ge (o t f : Nat) : f <<< 12 ≤ fromFlagBits o t f :=
  aux_le_or_right _ _

/-- C9: under the packed representation's integer ordering, every
promotion move (capturing or not) is strictly greater than every plain
or en-passant capture move, and every capture move is strictly greater
than every quiet move, for all proper origin and target squares. -/
theorem c9_move_ordering (o1 t1 o2 t2 o3 t3 piece : Nat)
    (h1 : ValidSquare o1) (h2 : ValidSquare t1)
    (h3 : ValidSquare o2) (h4 : ValidSquare t2)
    (h5 : ValidSquare o3) (h6 : ValidSquare t3)
    (hp : piece ∈ ([knightT, bishopT, rookT, queenT] : List Nat)) :
    newCapture o2 t2 < newPromotion o1 t1 piece
    ∧ newEnPassant o2 t2 < newPromotion o1 t1 piece
    ∧ newCapture o2 t2 < newPromotionCapture o1 t1 piece
    ∧ newEnPassant o2 t2 < newPromotionCapture o1 t1 piece
    ∧ newQuiet o3 t3 < newCapture o2 t2
    ∧ newQuiet o3 t3 < newEnPassant o2 t2 := by
  have ho1 := aux_squareToCode_lt o1 h1
  have ht1 := aux_squareToCode_lt t1 h2
  have ho2 := aux_squareToCode_lt o2 h3
  have ht2 := aux_squareToCode_lt t2 h4
  have ho3 := aux_squareToCode_lt o3 h5
  have ht3 := aux_squareToCode_lt t3 h6
  -- capture-like moves stay below every promotion-like move
  have hcap4 : newCapture o2 t2 < 32768 :=
    aux_fromFlagBits_lt _ _ _ ho2 ht2 (by decide)
  have hcap5 : newEnPassant o2 t2 < 32768 :=
    aux_fromFlagBits_lt _ _ _ ho2 ht2 (by decide)
  -- quiet moves stay below every capture-like move
  have hquiet : newQuiet o3 t3 < 16384 := by
    unfold newQuiet fromFlagBits
    have h0 : flagQuiet <<< 12 = 0 := by decide
    rw [h0, Nat.or_zero]
    have ha : squareToCode o3 < 2 ^ 12 := lt_of_lt_of_le ho3 (by norm_num)
    have hb : squareToCode t3 <<< 6 < 2 ^ 12 := by
      rw [Nat.shiftLeft_eq]
      norm_num
      omega
    have hc := Nat.or_lt_two_pow (n := 12) ha hb
    exact lt_of_lt_of_le hc (by norm_num)
  have hcapge4 : 16384 ≤ newCapture o2 t2 := by
    have := aux_fromFlagBits_ge o2 t2 flagCapture
    calc (16384 : Nat) = flagCapture <<< 12 := by decide
      _ ≤ _ := this
  have hcapge5 : 16384 ≤ newEnPassant o2 t2 := by
    have := aux_fromFlagBits_ge o2 t2 flagEnPassant
    calc (16384 : Nat) ≤ flagEnPassant <<< 12 := by decide
      _ ≤ _ := this
  -- every promotion flag nibble is at least 8
  have hpro : 32768 ≤ newPromotion o1 t1 piece := by
    have := aux_fromFlagBits_ge o1 t1 (flagPromotion ||| pieceToCode piece)
    simp only [List.mem_cons, List.not_mem_nil, or_false, List.mem_singleton] at hp
    rcases hp with rfl | rfl | rfl | rfl <;> exact le_trans (by decide) this
  have hproc : 32768 ≤ newPromotionCapture o1 t1 piece := by
    have := aux_fromFlagBits_ge o1 t1 (flagPromotion ||| flagCapture ||| pieceToCode piece)
    simp only [List.mem_cons, List.not_mem_nil, or_false, List.mem_singleton] at hp
    rcases hp with rfl | rfl | rfl | rfl <;> exact le_trans (by decide) this
  exact ⟨lt_of_lt_of_le hcap4 hpro, lt_of_lt_of_le hcap5 hpro,
    lt_of_lt_of_le hcap4 hproc, lt_of_lt_of_le hcap5 hproc,
    lt_of_lt_of_le hquiet hcapge4, lt_of_lt_of_le hquiet hcapge5⟩

/-- Membership in a conditional list with an empty alternative. -/
theorem aux_mem_ite_nil (x : Nat) (p : Prop) [Decidable p] (l : List Nat) :
    (x ∈ if p then l else []) ↔ (p ∧ x ∈ l) := by
  split <;> simp_all

/-- C8: a castling move is generated (by `generate_castling_moves`) if
and only if the side to move matches, the corresponding rights bit is
set, the king is not currently in check, every square between king and
rook is empty, and every square the king transits (landing square
included) is not attacked by the opponent. -/
theorem c8_castling_generation_iff (pos : Position) (c : Color) (kingside : Bool) :
    castleMoveOf c kingside ∈ genCastlingMoves pos ↔ castlingSpecCond pos c kingside := by
  have hne1 : newCastleKingside sqE1 sqG1 ≠ newCastleQueenside sqE1 sqC1 := by decide
  have hne2 : newCastleKingside sqE8 sqG8 ≠ newCastleQueenside sqE8 sqC8 := by decide
  unfold castleMoveOf genCastlingMoves castlingSpecCond rightsBit betweenSquares
    transitSquares isEmptyAndNotAttacked isCheckPos
  cases c <;> cases kingside <;> cases hstm : pos.sideToMove <;>
    simp only [hstm, cond_true, cond_false, List.mem_append, aux_mem_ite_nil,
      List.mem_singleton, Bool.and_eq_true, Bool.not_eq_true', beq_iff_eq,
      List.forall_mem_cons, List.forall_mem_singleton, forall_eq,
      Bool.not_false, Bool.not_true, and_true, hne1, hne1.symm, hne2, hne2.symm,
      ne_eq, false_and, and_false, or_false, false_or] <;>
    tauto

/-- C9 witness: the ordering at concrete squares (f7, f8, e4, e5, e2,
e3) with a queen promotion. -/
theorem c9_move_ordering_witness :
    newCapture 55 65 < newPromotion 86 96 queenT
    ∧ newQuiet 35 45 < newCapture 55 65 :=
  have h := c9_move_ordering 86 96 55 65 35 45 queenT
    (by decide) (by decide) (by decide) (by decide) (by decide) (by decide) (by decide)
  ⟨h.1, h.2.2.2.2.1⟩

/-- C5 counterexample: in `c5Pos` with the full window, the code's
quiescence search returns 400 (the negated static evaluation after
Qa1xb2), while the claim's recursive quiescence returns 300 (it sees
the recapture Rb8xb2): the capture scores are not produced by a
recursive quiescence call. -/
theorem c5_quiescence_not_recursive :
    (quiescenceSearch c5Pos (-INF) INF).1 = 400
    ∧ (quiescenceSpecRec 10 c5Pos (-INF) INF).1 = 300
    ∧ (quiescenceSearch c5Pos (-INF) INF).1
        ≠ (quiescenceSpecRec 10 c5Pos (-INF) INF).1 := by
  refine ⟨by decide, by decide, by decide⟩

/-- The quiescence capture loop never returns less than the smaller of
`beta` and the `alpha` it starts from. -/
theorem aux_qLoop_ge (beta : Int) (l : List Nat) :
    ∀ (pos : Position) (alpha : Int), min beta alpha ≤ (qLoop beta l pos alpha).1 := by
  induction l with
  | nil =>
    intro pos alpha
    exact min_le_right beta alpha
  | cons m ms ih =>
    intro pos alpha
    simp only [qLoop]
    split
    · exact ih _ _
    · split
      · exact min_le_left beta alpha
      · exact le_trans (min_le_min (le_refl _) (le_max_left _ _)) (ih _ _)

/-- Quiescence search never returns less than the smaller of `beta` and
the stand-pat-raised `alpha`. -/
theorem aux_quiescence_ge (pos : Position) (alpha beta : Int) :
    min beta (max alpha (evaluate pos)) ≤ (quiescenceSearch pos alpha beta).1 := by
  have hq : quiescenceSearch pos alpha beta
      = if beta ≤ evaluate pos then (beta, pos)
        else qLoop beta (sortMoves (genPseudoLegalMovesB pos true)) pos
          (max alpha (evaluate pos)) := rfl
  rw [hq]
  split
  · simp only []
    exact min_le_left _ _
  · exact aux_qLoop_ge _ _ _ _

/-- C5 amended: quiescence stand-pat behaviour is as claimed (return
`beta` when the static evaluation meets it, otherwise raise `alpha` to
at least the static evaluation), but each capture surviving the
legality skip is scored by the negated static evaluation of the
resulting position — not by a recursive quiescence call — and that
score raises `alpha` or triggers the `beta` cutoff. -/
theorem c5_quiescence_static_eval_amended :
    (∀ (pos : Position) (alpha beta : Int), beta ≤ evaluate pos →
        quiescenceSearch pos alpha beta = (beta, pos))
    ∧ (∀ (pos : Position) (alpha beta : Int),
        min beta (max alpha (evaluate pos)) ≤ (quiescenceSearch pos alpha beta).1)
    ∧ (∀ (beta alpha : Int) (pos : Position) (m : Nat) (ms : List Nat),
        inCheck (makeBitMove pos m) (!(makeBitMove pos m).sideToMove) = false →
        -(evaluate (makeBitMove pos m)) < beta →
        qLoop beta (m :: ms) pos alpha
          = qLoop beta ms (undoMoveT (makeBitMove pos m))
              (max alpha (-(evaluate (makeBitMove pos m)))))
    ∧ (∀ (beta alpha : Int) (pos : Position) (m : Nat) (ms : List Nat),
        inCheck (makeBitMove pos m) (!(makeBitMove pos m).sideToMove) = false →
        beta ≤ -(evaluate (makeBitMove pos m)) →
        qLoop beta (m :: ms) pos alpha = (beta, undoMoveT (makeBitMove pos m))) := by
  refine ⟨?_, aux_quiescence_ge, ?_, ?_⟩
  · intro pos alpha beta h
    unfold quiescenceSearch
    rw [if_pos h]
  · intro beta alpha pos m ms h1 h2
    simp only [qLoop, h1, Bool.false_eq_true, if_false]
    rw [if_neg (not_le.mpr h2)]
  · intro beta alpha pos m ms h1 h2
    simp only [qLoop, h1, Bool.false_eq_true, if_false]
    rw [if_pos h2]

/-- C5 amended witness: the four parts applied in `c5Pos` (the capture
is Qa1xb2, whose negated child evaluation is 400). -/
theorem c5_quiescence_static_eval_amended_witness :
    quiescenceSearch c5Pos 0 100 = (100, c5Pos)
    ∧ min 100 (max 0 (evaluate c5Pos)) ≤ (quiescenceSearch c5Pos 0 100).1
    ∧ qLoop INF [newCapture 21 32] c5Pos 300
        = qLoop INF [] (undoMoveT (makeBitMove c5Pos (newCapture 21 32)))
            (max 300 (-(evaluate (makeBitMove c5Pos (newCapture 21 32)))))
    ∧ qLoop 350 [newCapture 21 32] c5Pos 300
        = (350, undoMoveT (makeBitMove c5Pos (newCapture 21 32))) :=
  ⟨c5_quiescence_static_eval_amended.1 c5Pos 0 100 (by decide),
   c5_quiescence_static_eval_amended.2.1 c5Pos 0 100,
   c5_quiescence_static_eval_amended.2.2.1 INF 300 c5Pos (newCapture 21 32) []
     (by decide) (by decide),
   c5_quiescence_static_eval_amended.2.2.2 350 300 c5Pos (newCapture 21 32) []
     (by decide) (by decide)⟩

/-- C2: the ten-ply game reaches `c2Pos` through moves returned as
legal; the junk pawn capture `c2Move` (h2 toward the sentinel index 49,
encoded target a4 — the white king's square) is in the legal list; and
make followed by undo does not restore the position: the white
king-square cache ends at 38 (h2) instead of 51 (a4). -/
theorem c2_make_undo_not_restored :
    ReachableFrom startPos c2Pos
    ∧ c2Move ∈ generateLegalMoves c2Pos
    ∧ undoMove (makeBitMove c2Pos c2Move) ≠ some c2Pos
    ∧ (undoMove (makeBitMove c2Pos c2Move)).map Position.kingSquareWhite = some 38
    ∧ c2Pos.kingSquareWhite = 51 := by
  refine ⟨?_, by decide, by decide, by decide, by decide⟩
  exact .step (.step (.step (.step (.step (.step (.step (.step (.step (.step
    .base
    (by decide)) (by decide)) (by decide)) (by decide)) (by decide))
    (by decide)) (by decide)) (by decide)) (by decide)) (by decide)

/-- C6 counterexample: `c6Pos` has exactly one legal move (a3a2), but
`search` at depth 2 returns the null move (the single move runs into
mate Rb1-b8, so its score is `-INF`, never exceeding the running
maximum, and `best_move` is never assigned). -/
theorem c6_search_depth2_returns_null :
    generateLegalMoves c6Pos = [c6Move]
    ∧ search c6Pos 2 = nullMove
    ∧ nullMove ≠ c6Move := by
  refine ⟨by decide, by decide, by decide⟩

/-- Piece values are between 0 and 900. -/
theorem aux_pieceValue_bounds (t : Nat) : 0 ≤ pieceValue t ∧ pieceValue t ≤ 900 := by
  unfold pieceValue
  split_ifs <;> norm_num

/-- The material fold grows by between 0 and 900 per square. -/
theorem aux_material_fold_bounds (pos : Position) (c : Color) (l : List Nat) :
    ∀ acc : Int,
      acc ≤ l.foldl
          (fun acc sq =>
            let cc := pos.cell sq
            if isPiece cc && isColor cc c then acc + pieceValue (pieceTypeOf cc) else acc)
          acc
      ∧ l.foldl
          (fun acc sq =>
            let cc := pos.cell sq
            if isPiece cc && isColor cc c then acc + pieceValue (pieceTypeOf cc) else acc)
          acc
        ≤ acc + 900 * l.length := by
  induction l with
  | nil => intro acc; simp
  | cons sq ms ih =>
    intro acc
    simp only [List.foldl_cons, List.length_cons]
    have hstep :
        acc ≤ (if isPiece (pos.cell sq) && isColor (pos.cell sq) c then
            acc + pieceValue (pieceTypeOf (pos.cell sq)) else acc)
        ∧ (if isPiece (pos.cell sq) && isColor (pos.cell sq) c then
            acc + pieceValue (pieceTypeOf (pos.cell sq)) else acc) ≤ acc + 900 := by
      have hb := aux_pieceValue_bounds (pieceTypeOf (pos.cell sq))
      split <;> constructor <;> linarith [hb.1, hb.2]
    have := ih (if isPiece (pos.cell sq) && isColor (pos.cell sq) c then
      acc + pieceValue (pieceTypeOf (pos.cell sq)) else acc)
    constructor
    · exact le_trans hstep.1 this.1
    · refine le_trans this.2 ?_
      have hlen : (0 : Int) ≤ ms.length := Int.ofNat_nonneg _
      have := hstep.2
      push_cast
      push_cast at this ⊢
      linarith

/-- The static evaluation is bounded well inside the mate sentinel. -/
theorem aux_evaluate_bounds (pos : Position) :
    -57600 ≤ evaluate pos ∧ evaluate pos ≤ 57600 := by
  have hW := aux_material_fold_bounds pos pos.sideToMove realSquares 0
  have hB := aux_material_fold_bounds pos (!pos.sideToMove) realSquares 0
  have hlen : (realSquares.length : Int) = 64 := by decide
  unfold evaluate materialFor
  unfold materialFor at hW hB
  rw [hlen] at hW hB
  constructor <;> linarith [hW.1, hW.2, hB.1, hB.2]

/-- At depth 1 the negamax loop with the full window never reaches the
fail-high return: every child score is finite because quiescence search
is bounded below by the (finite) static evaluation. -/
theorem aux_nmLoop_lt_INF (l : List Nat) :
    ∀ (pos : Position) (alpha : Int) (anyL : Bool), alpha < INF →
      (nmLoop (negamax 0) INF l pos alpha anyL).1 < INF := by
  induction l with
  | nil =>
    intro pos alpha anyL h
    simp only [nmLoop]
    split
    · exact h
    · split <;> norm_num [INF]
  | cons m ms ih =>
    intro pos alpha anyL h
    simp only [nmLoop]
    split
    · exact ih _ _ _ h
    · have hq : -INF < (negamax 0 (makeBitMove pos m) (-INF) (-alpha)).1 := by
        have hcall : negamax 0 (makeBitMove pos m) (-INF) (-alpha)
            = quiescenceSearch (makeBitMove pos m) (-INF) (-alpha) := rfl
        rw [hcall]
        have hge := aux_quiescence_ge (makeBitMove pos m) (-INF) (-alpha)
        have hev := aux_evaluate_bounds (makeBitMove pos m)
        have h1 : -INF < -alpha := by omega
        have h2 : -INF < max (-INF) (evaluate (makeBitMove pos m)) := by
          have := le_max_right (-INF) (evaluate (makeBitMove pos m))
          have hI : -INF < evaluate (makeBitMove pos m) := by
            have h57 := hev.1
            unfold INF
            omega
          exact lt_max_of_lt_right hI
        exact lt_of_lt_of_le (lt_min h1 h2) hge
      have hev2 : -(negamax 0 (makeBitMove pos m) (-INF) (-alpha)).1 < INF := by omega
      rw [if_neg (not_le.mpr hev2)]
      exact ih _ _ _ (max_lt h hev2)

/-- With the full window, depth-1 negamax never returns `INF`. -/
theorem aux_negamax1_lt_INF (pos : Position) :
    (negamax 1 pos (-INF) INF).1 < INF := by
  have : negamax 1 pos (-INF) INF
      = nmLoop (negamax 0) INF (sortMoves (genPseudoLegalMovesB pos false)) pos (-INF) false :=
    rfl
  rw [this]
  exact aux_nmLoop_lt_INF _ _ _ _ (by norm_num [INF])

/-- C6 amended: a position whose legal-move list is exactly one move
gets that move back from `search` at depth 1 (at depth 2 and beyond the
search can return the null move instead, as the counterexample shows). -/
theorem c6_search_unique_move_depth1 (pos : Position) (m : Nat)
    (h : generateLegalMoves pos = [m]) : search pos 1 = m := by
  have h' : (legalFilter pos (genPseudoLegalMoves pos)).1 = [m] := h
  have hs : search pos 1
      = searchLoop 1 (legalFilter pos (genPseudoLegalMoves pos)).1
          (legalFilter pos (genPseudoLegalMoves pos)).2 (-INF) nullMove := rfl
  rw [hs, h']
  simp only [searchLoop]
  have hfin := aux_negamax1_lt_INF
    (makeBitMove (legalFilter pos (genPseudoLegalMoves pos)).2 m)
  rw [if_pos (by omega :
    -INF < -(negamax 1 (makeBitMove (legalFilter pos (genPseudoLegalMoves pos)).2 m)
      (-INF) INF).1)]

/-- C6 amended witness: `c6Pos` has the single legal move a3a2, and
depth-1 search returns it. -/
theorem c6_search_unique_move_depth1_witness :
    generateLegalMoves c6Pos = [c6Move] ∧ search c6Pos 1 = c6Move :=
  ⟨by decide, c6_search_unique_move_depth1 c6Pos c6Move (by decide)⟩

end Chers
